import Mathlib

/-!
Verification of the batch-send Bitcoin transaction builder.

The repository contains two variants of the pipeline:
* `main.js` (taproot / P2TR): `batchSend` — greedy UTXO selection with an early
  stop, a scriptPubKey mismatch check, a `>= 546` dust rule for change, taproot
  key-parity tweaking and Schnorr signing with a post-sign verification check.
* the P2WPKH variant: `createTransaction` — adds every fetched UTXO (no early
  stop), no scriptPubKey comparison, a `> 546` dust rule, ECDSA signing.

Amounts are satoshis (non-negative integers); BigInt arithmetic is modelled by
`Int`, exact JS number arithmetic on satoshi amounts by `Nat`, and the JS
floating-point BTC amounts by exact rationals.  Scripts are kept as hex strings,
exactly as the code compares them (`scriptPubKeyFromApiHex !== expectedScriptPubKeyHex`).
-/

/-- A UTXO as fetched from the explorer API: txid, output index, value in sats
(main.js lines around `getUtxos` / `utxo.txid`, `utxo.vout`, `utxo.value`). -/
structure Utxo where
  txid : String
  vout : Nat
  value : Nat
deriving DecidableEq, Repr

/-- One PSBT input as added by `psbt.addInput({hash, index, witnessUtxo: {script, value}})`.
The previous-output script is kept in hex form. -/
structure PsbtInput where
  txid : String
  vout : Nat
  witnessScript : String
  value : Nat
deriving DecidableEq, Repr

/-- One transaction output as added by `psbt.addOutput({address, value})`. -/
structure TxOutput where
  address : String
  value : Nat
deriving DecidableEq, Repr

/-- Sum of the values of a list of UTXOs (the running `totalInput`). -/
def sumVals (l : List Utxo) : Nat := (l.map Utxo.value).sum

/-- Sum of the values of the PSBT inputs. -/
def sumInputValues (l : List PsbtInput) : Nat := (l.map PsbtInput.value).sum

/-- Sum of the values of the outputs. -/
def outputsSum (l : List TxOutput) : Nat := (l.map TxOutput.value).sum

/-- main.js `estimateTxVbytes`: `Math.ceil(10.5 + inputCount * 57.5 + outputCount * 43)`.
Computed in half-vbyte units: the argument of `ceil` is `(21 + 115*i + 86*o)/2`,
and for a natural number `x`, `ceil (x/2) = (x+1)/2` with truncating division. -/
def estimateTxVbytes (inputCount outputCount : Nat) : Nat :=
  (21 + 115 * inputCount + 86 * outputCount + 1) / 2

/-- main.js fee estimate: `BigInt(estimateTxVbytes(inputs, outputs) * feeRate)`
(both factors are integers, so the product is exact). -/
def feeEstimate (inputCount outputCount rate : Nat) : Nat :=
  estimateTxVbytes inputCount outputCount * rate

/-- createTransaction's inline size estimate:
`Math.ceil(inputCount*68 + outputCount*34 + 10.5)`; the integer part is exact so
the ceiling just turns `10.5` into `11`. -/
def estimatedSizeP2wpkh (inputCount outputCount : Nat) : Nat :=
  68 * inputCount + 34 * outputCount + 11

/-- createTransaction's fee: `Math.ceil(feeRate * estimatedSize)` (integer product). -/
def feeEstimateP2wpkh (inputCount outputCount rate : Nat) : Nat :=
  rate * estimatedSizeP2wpkh inputCount outputCount

/-- The bound the selection loop tests after each addition: accumulated input
value is at least `totalPayout + fee(currentInputCount, recipients+1, rate)`.
`m` is the number of recipient addresses. -/
def stopBound (rate m payout : Nat) (sel : List Utxo) : Prop :=
  payout + feeEstimate sel.length (m + 1) rate ≤ sumVals sel

instance (rate m payout : Nat) (sel : List Utxo) : Decidable (stopBound rate m payout sel) :=
  inferInstanceAs (Decidable (_ ≤ _))

/-- The selection loop of `batchSend` (main.js lines 269-278):

```
for (const utxo of utxos) {
    selectedUtxos.push(utxo);
    totalInput += utxo.value;
    estimatedFee = BigInt(estimateTxVbytes(selectedUtxos.length, addresses.length + 1) * feeRate);
    const totalNeeded = totalAmountToSend + estimatedFee;
    if (BigInt(totalInput) >= totalNeeded) break;
}
```

The accumulator carries `selectedUtxos`, `totalInput` and `estimatedFee`;
the result is their state when the loop exits. -/
def selGo (rate m payout : Nat) : List Utxo → List Utxo → Nat → Nat → List Utxo × Nat × Nat
  | [], sel, tot, fee => (sel, tot, fee)
  | u :: rest, sel, tot, _fee =>
    let sel2 := sel ++ [u]
    let tot2 := tot + u.value
    let fee2 := feeEstimate sel2.length (m + 1) rate
    if payout + fee2 ≤ tot2 then (sel2, tot2, fee2)
    else selGo rate m payout rest sel2 tot2 fee2

/-- The whole selection phase: the loop starting from
`selectedUtxos = []`, `totalInput = 0`, `estimatedFee = BigInt(0)`. -/
def selectUtxos (rate m payout : Nat) (utxos : List Utxo) : List Utxo × Nat × Nat :=
  selGo rate m payout utxos [] 0 0

theorem sumVals_append (l1 l2 : List Utxo) : sumVals (l1 ++ l2) = sumVals l1 + sumVals l2 := by
  simp [sumVals]

theorem take_append_singleton (sel : List Utxo) (u : Utxo) (j : Nat) (hj : j ≤ sel.length) :
    (sel ++ [u]).take j = sel.take j := by
  rw [List.take_append_eq_append_take, Nat.sub_eq_zero_of_le hj, List.take_zero, List.append_nil]

/-- Main invariant of the selection loop.  On entry `sel` is the non-empty list
already selected, `tot` its accumulated value, `fee` the current fee estimate,
and no prefix of `sel` (including `sel` itself) satisfies the stop bound.
On exit the result extends `sel` by some prefix of `rest`, the accumulated total
and the fee estimate are those of the final selection, no strict prefix of the
final selection satisfies the stop bound, and if even the final selection does
not satisfy it then `rest` was exhausted. -/
theorem selGo_spec (rate m payout : Nat) :
    ∀ (rest sel : List Utxo) (tot fee : Nat),
      sel ≠ [] →
      tot = sumVals sel →
      fee = feeEstimate sel.length (m + 1) rate →
      (∀ j, j ≤ sel.length → ¬ stopBound rate m payout (sel.take j)) →
      ∃ k, k ≤ rest.length ∧
        (selGo rate m payout rest sel tot fee).1 = sel ++ rest.take k ∧
        (selGo rate m payout rest sel tot fee).2.1 = sumVals (sel ++ rest.take k) ∧
        (selGo rate m payout rest sel tot fee).2.2 =
          feeEstimate (sel ++ rest.take k).length (m + 1) rate ∧
        (∀ j, j < (sel ++ rest.take k).length →
          ¬ stopBound rate m payout ((sel ++ rest.take k).take j)) ∧
        (¬ stopBound rate m payout (sel ++ rest.take k) → k = rest.length) := by
  intro rest
  induction rest with
  | nil =>
    intro sel tot fee _ htot hfee hpre
    refine ⟨0, Nat.le_refl _, ?_, ?_, ?_, ?_, ?_⟩
    · simp [selGo]
    · simp [selGo, htot]
    · simp [selGo, hfee]
    · intro j hj
      simp only [List.take_zero, List.append_nil] at hj ⊢
      exact hpre j (Nat.le_of_lt hj)
    · intro _; simp
  | cons u rs ih =>
    intro sel tot fee hne htot hfee hpre
    have htot2 : tot + u.value = sumVals (sel ++ [u]) := by
      rw [htot, sumVals_append]; simp [sumVals]
    by_cases hc : payout + feeEstimate (sel ++ [u]).length (m + 1) rate ≤ tot + u.value
    · -- the loop breaks: the freshly added UTXO satisfies the bound
      have hres : selGo rate m payout (u :: rs) sel tot fee =
          (sel ++ [u], tot + u.value, feeEstimate (sel ++ [u]).length (m + 1) rate) := by
        simp only [selGo, if_pos hc]
      have htake : (u :: rs).take 1 = [u] := by simp
      have hstop2 : stopBound rate m payout (sel ++ [u]) := by
        rw [stopBound, ← htot2]; exact hc
      refine ⟨1, by simp, ?_, ?_, ?_, ?_, ?_⟩
      · rw [hres, htake]
      · rw [hres, htake]; exact htot2
      · rw [hres, htake]
      · intro j hj
        rw [htake] at hj ⊢
        have hj' : j ≤ sel.length := by
          simp only [List.length_append, List.length_cons, List.length_nil] at hj; omega
        rw [take_append_singleton sel u j hj']
        exact hpre j hj'
      · rw [htake]
        intro hnot
        exact absurd hstop2 hnot
    · -- the bound is not yet met: the loop continues with sel ++ [u]
      have hres : selGo rate m payout (u :: rs) sel tot fee =
          selGo rate m payout rs (sel ++ [u]) (tot + u.value)
            (feeEstimate (sel ++ [u]).length (m + 1) rate) := by
        simp only [selGo, if_neg hc]
      have hstop2 : ¬ stopBound rate m payout (sel ++ [u]) := by
        rw [stopBound, ← htot2]; exact hc
      have hpre2 : ∀ j, j ≤ (sel ++ [u]).length →
          ¬ stopBound rate m payout ((sel ++ [u]).take j) := by
        intro j hj
        simp only [List.length_append, List.length_cons, List.length_nil] at hj
        rcases Nat.lt_or_ge j (sel.length + 1) with hlt | hge
        · have hj' : j ≤ sel.length := by omega
          rw [take_append_singleton sel u j hj']
          exact hpre j hj'
        · have htk : (sel ++ [u]).take j = sel ++ [u] := by
            apply List.take_of_length_le
            simp only [List.length_append, List.length_cons, List.length_nil]; omega
          rw [htk]; exact hstop2
      obtain ⟨k, hk, h1, h2, h3, h4, h5⟩ :=
        ih (sel ++ [u]) (tot + u.value) (feeEstimate (sel ++ [u]).length (m + 1) rate)
          (by simp) htot2 rfl hpre2
      have hq : (sel ++ [u]) ++ rs.take k = sel ++ (u :: rs).take (k + 1) := by
        simp [List.take_succ_cons]
      refine ⟨k + 1, ?_, ?_, ?_, ?_, ?_, ?_⟩
      · simp only [List.length_cons]; omega
      · rw [hres, h1, hq]
      · rw [hres, h2, hq]
      · rw [hres, h3, hq]
      · rw [← hq]
        intro j hj
        exact h4 j hj
      · rw [← hq]
        intro h
        rw [h5 h]
        simp

/-- The change computed at main.js line 339:
`const changeValue = BigInt(totalInput) - totalAmountToSend - finalFee;`
where `finalFee = estimatedFee` is the fee estimate left by the selection loop. -/
def changeValue (rate : Nat) (addresses : List String) (amountInSatoshis : Nat)
    (utxos : List Utxo) : Int :=
  let r := selectUtxos rate addresses.length (amountInSatoshis * addresses.length) utxos
  (r.2.1 : Int) - (amountInSatoshis * addresses.length : Nat) - (r.2.2 : Nat)

/-- The ways a run aborts before producing a finished transaction.  Each
constructor corresponds to one early `return`/`throw` of the source. -/
inductive AbortReason where
  /-- main.js line 251 / createTransaction line 616: no UTXO available. -/
  | noUtxos
  /-- createTransaction line 652: no valid UTXO input was added. -/
  | noValidInputs
  /-- insufficient balance, reporting required and available totals
  (main.js lines 280-283, createTransaction lines 692-698). -/
  | insufficientFunds (required available : Nat)
  /-- main.js lines 294-295 and the catch at 322-325: the previous-output
  script of a UTXO could not be fetched. -/
  | fetchFailure (txid : String) (vout : Nat)
  /-- main.js lines 303-308: the fetched scriptPubKey differs from the
  expected funding script. -/
  | scriptMismatch (txid : String) (vout : Nat) (got expected : String)
  /-- main.js lines 345-348: negative change, an internal invariant violation. -/
  | negativeChange (change : Int)
  /-- main.js lines 440-446 / 465-474: signing or signature verification failed. -/
  | signError (msg : String)
deriving DecidableEq, Repr

/-- The state of the PSBT after the build phase of `batchSend` (steps 2-5 of
main.js): the selected UTXOs, the inputs and outputs added to the PSBT, the
final fee estimate and the change value. -/
structure Built where
  selected : List Utxo
  inputs : List PsbtInput
  outputs : List TxOutput
  fee : Nat
  change : Int
deriving DecidableEq, Repr

/-- Step 3 of `batchSend` (main.js lines 287-326): for each selected UTXO fetch
its previous-output script (`getUtxoDetails`, modelled by the `fetchScript`
collaborator; `none` models a missing `scriptpubkey` or a failed fetch), abort
if it cannot be fetched, abort with a script-mismatch error if it differs from
`expectedScriptPubKeyHex`, and otherwise add the input to the PSBT. -/
def addInputsTaproot (expected : String) (fetchScript : Utxo → Option String) :
    List Utxo → Except AbortReason (List PsbtInput)
  | [] => .ok []
  | u :: rest =>
    match fetchScript u with
    | none => .error (.fetchFailure u.txid u.vout)
    | some s =>
      if s ≠ expected then .error (.scriptMismatch u.txid u.vout s expected)
      else
        match addInputsTaproot expected fetchScript rest with
        | .error e => .error e
        | .ok tail => .ok (⟨u.txid, u.vout, s, u.value⟩ :: tail)

/-- Steps 2-5 of `batchSend` (main.js lines 249-358): select UTXOs greedily,
abort when the balance is insufficient, add the inputs (checking each fetched
script against the expected one), add one output of `amountInSatoshis` per
recipient address, compute `finalFee = estimatedFee` and
`changeValue = totalInput - totalAmountToSend - finalFee`, abort if the change
is negative, and append a change output to the funding address exactly when
`changeValue >= 546`. -/
def batchSendBuild (rate : Nat) (addresses : List String) (amountInSatoshis : Nat)
    (fromAddress expectedScriptPubKeyHex : String) (fetchScript : Utxo → Option String)
    (utxos : List Utxo) : Except AbortReason Built :=
  if utxos = [] then .error .noUtxos
  else
    let totalAmountToSend := amountInSatoshis * addresses.length
    let r := selectUtxos rate addresses.length totalAmountToSend utxos
    if r.2.1 < totalAmountToSend + r.2.2 then
      .error (.insufficientFunds (totalAmountToSend + r.2.2) r.2.1)
    else
      match addInputsTaproot expectedScriptPubKeyHex fetchScript r.1 with
      | .error e => .error e
      | .ok inputs =>
        let finalFee := r.2.2
        let change : Int := (r.2.1 : Int) - (totalAmountToSend : Nat) - (finalFee : Nat)
        if change < 0 then .error (.negativeChange change)
        else
          let outputs := addresses.map (fun a => TxOutput.mk a amountInSatoshis) ++
            (if 546 ≤ change then [TxOutput.mk fromAddress change.toNat] else [])
          .ok ⟨r.1, inputs, outputs, finalFee, change⟩

/-- The input loop of `createTransaction` (P2WPKH variant, lines 627-650):
every fetched UTXO is added; a UTXO whose `scriptpubkey` cannot be obtained is
merely skipped (`continue`), and no comparison against the funding script is
performed. -/
def addInputsP2wpkh (fetchScript : Utxo → Option String) :
    List Utxo → List PsbtInput
  | [] => []
  | u :: rest =>
    match fetchScript u with
    | none => addInputsP2wpkh fetchScript rest
    | some s => ⟨u.txid, u.vout, s, u.value⟩ :: addInputsP2wpkh fetchScript rest

/-- `createTransaction` of the P2WPKH variant (lines 604-736), up to the built
PSBT (signing is done by the bitcoinjs-lib PSBT signer and is outside this
model): add every fetched UTXO as an input, estimate the fee once using the
FULL fetched UTXO count (`inputCount = utxos.length`) and
`outputCount = addresses.length + 1`, abort when
`inputAmount < totalAddressesAmount + estimatedFee`, add one output of
`sendSatoshis` per recipient, and append a change output exactly when
`changeAmount > 546` (strictly greater). -/
def createTransactionBuild (feeRate : Nat) (addresses : List String) (sendSatoshis : Nat)
    (address : String) (fetchScript : Utxo → Option String) (utxos : List Utxo) :
    Except AbortReason Built :=
  if utxos = [] then .error .noUtxos
  else
    let inputs := addInputsP2wpkh fetchScript utxos
    if inputs = [] then .error .noValidInputs
    else
      let inputAmount := sumInputValues inputs
      let estimatedFee := feeEstimateP2wpkh utxos.length (addresses.length + 1) feeRate
      let totalAddressesAmount := addresses.length * sendSatoshis
      if inputAmount < totalAddressesAmount + estimatedFee then
        .error (.insufficientFunds (totalAddressesAmount + estimatedFee) inputAmount)
      else
        let changeAmount : Int := (inputAmount : Int) - (totalAddressesAmount : Nat) - (estimatedFee : Nat)
        let outputs := addresses.map (fun a => TxOutput.mk a sendSatoshis) ++
          (if 546 < changeAmount then [TxOutput.mk address changeAmount.toNat] else [])
        .ok ⟨utxos, inputs, outputs, estimatedFee, changeAmount⟩

/-- `SIGHASH_DEFAULT` (`bitcoin.Transaction.SIGHASH_DEFAULT`). -/
def sighashDefault : Nat := 0

/-- The constant passed as the fifth argument of `hashForWitnessV1`
(main.js line 395). -/
def genesisBlockHashHex : String :=
  "000000000019d6689c085ae165831e934ff763ae46a2a6c172b3f1b60a8ce26f"

/-- The data a BIP341 taproot signature hash commits to.  The SHA256 digest
itself is modelled as the tuple of committed data: two digests are equal
exactly when they commit to the same data. -/
structure TaprootSighash where
  inIndex : Nat
  prevOutScripts : List String
  prevOutValues : List Nat
  hashType : Nat
  leafHash : String
deriving DecidableEq, Repr

/-- Modelled from bitcoinjs-lib `Transaction.hashForWitnessV1` (the library
function main.js calls at line 403), per BIP341: it requires one previous-output
script and one previous-output value per transaction input and throws
`Must supply prevout script and value for all inputs` otherwise; the digest
commits to the input index, every previous-output script and value, the sighash
type, and the leaf hash argument. -/
def hashForWitnessV1 (numInputs inIndex : Nat) (prevOutScripts : List String)
    (prevOutValues : List Nat) (hashType : Nat) (leafHash : String) :
    Except String TaprootSighash :=
  if prevOutScripts.length ≠ numInputs ∨ prevOutValues.length ≠ numInputs then
    .error "Must supply prevout script and value for all inputs"
  else .ok ⟨inIndex, prevOutScripts, prevOutValues, hashType, leafHash⟩

/-- The signature-hash computation of main.js lines 392-409 for input `i`:

```
const prevoutScripts = selectedUtxos.map(utxo => psbt.data.inputs[i].witnessUtxo.script);
const prevoutValues = selectedUtxos.map(utxo => psbt.data.inputs[i].witnessUtxo.value);
...
const prevoutScript = Buffer.from(prevoutScripts[i]);
const prevoutValue = Number(prevoutValues[i]);
sighashBuffer = tx.hashForWitnessV1(i, [prevoutScript], [prevoutValue], hashType, genesisBlockHash);
```

Note that both `map`s ignore their argument, and that `hashForWitnessV1`
receives singleton arrays containing only input `i`'s own script and value. -/
def sighashForInput (inputs : List PsbtInput) (selectedUtxos : List Utxo) (i : Nat) :
    Except String TaprootSighash :=
  let prevoutScripts := selectedUtxos.map (fun _ => (inputs.get? i).map PsbtInput.witnessScript)
  let prevoutValues := selectedUtxos.map (fun _ => (inputs.get? i).map PsbtInput.value)
  match prevoutScripts.get? i, prevoutValues.get? i with
  | some (some script), some (some value) =>
      hashForWitnessV1 inputs.length i [script] [value] sighashDefault genesisBlockHashHex
  | _, _ => .error "cannot compute the signature hash for this input"

/-- Modelled from the spec: the BIP341-style signature hash for input `i`
computed over ALL spent previous output scripts and ALL spent previous output
values of the transaction's inputs, with the default sighash type and the fixed
genesis anchor. -/
def specSighashForInput (inputs : List PsbtInput) (i : Nat) :
    Except String TaprootSighash :=
  hashForWitnessV1 inputs.length i (inputs.map PsbtInput.witnessScript)
    (inputs.map PsbtInput.value) sighashDefault genesisBlockHashHex

/-- The order of the secp256k1 curve, `secp.secp256k1.CURVE.n`
(= 0xFFFFFFFFFFFFFFFFFFFFFFFFFFFFFFFEBAAEDCE6AF48A03BBFD25E8CD0364141). -/
def secpOrder : Nat :=
  115792089237316195423570985008687907852837564279074904382605163141518161494337

/-- The taproot key tweaking of main.js lines 365-384: if the first byte of the
compressed public key is `3` (odd y parity), the signing scalar becomes
`(N - privKeyBigInt) % N`; otherwise the raw scalar is used unchanged.
`fullPublicKeyBytes` is the byte list returned by
`secp.secp256k1.getPublicKey(privateKeyBytes, true)`. -/
def privateKeyToUse (fullPublicKeyBytes : List Nat) (privateKeyBigInt : Nat) : Nat :=
  if fullPublicKeyBytes.head? = some 3 then (secpOrder - privateKeyBigInt) % secpOrder
  else privateKeyBigInt

/-- One signing step of main.js lines 362-464 for a single input, with the
cryptographic primitives (`getPublicKey`, `schnorr.sign`, `schnorr.verify` of
the noble library) taken as parameters: compute the x-only public key
`publicKeyBytes = getPublicKey(d, true).slice(1, 33)`, tweak the private scalar
according to the parity byte, sign the hash with the (possibly negated) scalar
and accept the signature only if it verifies against the x-only public key of
the RAW key (`pubkey` in the source); otherwise the run aborts. -/
def signTaprootInput (getPublicKey : Nat → List Nat)
    (schnorrSign : TaprootSighash → Nat → Nat)
    (schnorrVerify : Nat → TaprootSighash → List Nat → Bool)
    (privateKeyBytes : Nat) (sighash : TaprootSighash) : Except String Nat :=
  let fullPublicKeyBytes := getPublicKey privateKeyBytes
  let pubkey := (fullPublicKeyBytes.drop 1).take 32
  let keyToUse := privateKeyToUse fullPublicKeyBytes privateKeyBytes
  let sig := schnorrSign sighash keyToUse
  if schnorrVerify sig sighash pubkey then .ok sig else .error "the produced signature is invalid"

/-- The signing loop of main.js lines 389-464: for every input index in order,
compute the signature hash and a verified Schnorr signature; any failure aborts
the whole run before any transaction is finished. -/
def signInputs (getPublicKey : Nat → List Nat)
    (schnorrSign : TaprootSighash → Nat → Nat)
    (schnorrVerify : Nat → TaprootSighash → List Nat → Bool)
    (privateKeyBytes : Nat) (selectedUtxos : List Utxo) (inputs : List PsbtInput) :
    List Nat → Except String (List Nat)
  | [] => .ok []
  | i :: rest =>
    match sighashForInput inputs selectedUtxos i with
    | .error e => .error e
    | .ok h =>
      match signTaprootInput getPublicKey schnorrSign schnorrVerify privateKeyBytes h with
      | .error e => .error e
      | .ok s =>
        match signInputs getPublicKey schnorrSign schnorrVerify privateKeyBytes
            selectedUtxos inputs rest with
        | .error e => .error e
        | .ok tail => .ok (s :: tail)

/-- The `batchSend` pipeline through the signing phase: the build of steps 2-5
followed by the signing loop of step 6.  A result is produced only when every
input carries a verified signature; every abort of an earlier stage prevents
any signature from being produced. -/
def batchSendRun (getPublicKey : Nat → List Nat)
    (schnorrSign : TaprootSighash → Nat → Nat)
    (schnorrVerify : Nat → TaprootSighash → List Nat → Bool)
    (privateKeyBytes rate : Nat) (addresses : List String) (amountInSatoshis : Nat)
    (fromAddress expectedScriptPubKeyHex : String) (fetchScript : Utxo → Option String)
    (utxos : List Utxo) : Except AbortReason (Built × List Nat) :=
  match batchSendBuild rate addresses amountInSatoshis fromAddress expectedScriptPubKeyHex
      fetchScript utxos with
  | .error e => .error e
  | .ok b =>
    match signInputs getPublicKey schnorrSign schnorrVerify privateKeyBytes
        b.selected b.inputs (List.range b.inputs.length) with
    | .error m => .error (.signError m)
    | .ok sigs => .ok (b, sigs)

/-- The recommended-fees object returned by the mempool.space API
(`/v1/fees/recommended`).  A value of `0` models a missing or falsy field,
matching the JS `||` chain. -/
structure RecommendedFees where
  halfHourFee : Rat
  fastestFee : Rat
deriving DecidableEq, Repr

/-- main.js `getFeeRate` (lines 161-170): query the API FIRST and return
`data.halfHourFee || data.fastestFee || config.feeRate`; if the API call fails
(`apiResult = none`), return `config.feeRate` whatever it is (even absent). -/
def getFeeRate (apiResult : Option RecommendedFees) (configFeeRate : Option Rat) :
    Option Rat :=
  match apiResult with
  | some data =>
    if data.halfHourFee ≠ 0 then some data.halfHourFee
    else if data.fastestFee ≠ 0 then some data.fastestFee
    else configFeeRate
  | none => configFeeRate

/-- The config validation of the P2WPKH variant's `getFeeRate` (line 575):
`config.feeRate && typeof config.feeRate === 'number' && config.feeRate > 0`.
`none` models an absent or non-numeric value. -/
def validConfigRate (configFeeRate : Option Rat) : Option Rat :=
  match configFeeRate with
  | some r => if 0 < r then some r else none
  | none => none

/-- The P2WPKH variant's `getFeeRate` (lines 573-590): a valid positive numeric
configured rate takes priority; otherwise the API's `fastestFee` is used
(`apiFastest = none` models a failed fetch), and if the API also fails the
function throws. -/
def getFeeRateP2wpkh (configFeeRate : Option Rat) (apiFastest : Option Rat) :
    Except String Rat :=
  match validConfigRate configFeeRate with
  | some r => .ok r
  | none =>
    match apiFastest with
    | some f => .ok f
    | none => .error "cannot obtain a transaction fee rate"

/-- main.js line 113: `const amountToSendBTC = config.sendAmountBTC || 0.0001;`
— a missing or falsy configured amount silently becomes the 0.0001 BTC default.
JS floating-point amounts are modelled as exact rationals. -/
def amountToSendBTC (sendAmountBTC : Option Rat) : Rat :=
  match sendAmountBTC with
  | some v => if v ≠ 0 then v else 1 / 10000
  | none => 1 / 10000

/-- main.js line 114: `const amountInSats = Math.floor(amountToSendBTC * 100000000);`. -/
def amountInSats (sendAmountBTC : Option Rat) : Int :=
  ⌊amountToSendBTC sendAmountBTC * 100000000⌋

/-- utils.js `btcToSats`: `Math.floor(btc * 100000000)`. -/
def btcToSats (btc : Rat) : Int := ⌊btc * 100000000⌋

theorem addInputsTaproot_ok_of_matching (expected : String) (f : Utxo → Option String) :
    ∀ l : List Utxo, (∀ u ∈ l, f u = some expected) →
      addInputsTaproot expected f l =
        .ok (l.map (fun u => PsbtInput.mk u.txid u.vout expected u.value)) := by
  intro l
  induction l with
  | nil => intro _; rfl
  | cons u rest ih =>
    intro h
    have hu : f u = some expected := h u (List.mem_cons_self u rest)
    have hrest := ih (fun v hv => h v (List.mem_cons_of_mem u hv))
    simp only [addInputsTaproot, hu, hrest]
    simp

theorem addInputsTaproot_error_shape (expected : String) (f : Utxo → Option String) :
    ∀ (l : List Utxo) (e : AbortReason), addInputsTaproot expected f l = .error e →
      (∃ t v, e = .fetchFailure t v) ∨ (∃ t v s, s ≠ expected ∧ e = .scriptMismatch t v s expected) := by
  intro l
  induction l with
  | nil => intro e h; simp [addInputsTaproot] at h
  | cons u rest ih =>
    intro e h
    simp only [addInputsTaproot] at h
    cases hf : f u with
    | none =>
      simp only [hf, Except.error.injEq] at h
      exact Or.inl ⟨u.txid, u.vout, h.symm⟩
    | some s =>
      simp only [hf] at h
      by_cases hs : s ≠ expected
      · rw [if_pos hs] at h
        simp only [Except.error.injEq] at h
        exact Or.inr ⟨u.txid, u.vout, s, hs, h.symm⟩
      · rw [if_neg hs] at h
        cases hrec : addInputsTaproot expected f rest with
        | error e2 =>
          rw [hrec] at h
          simp only [Except.error.injEq] at h
          rw [← h]; exact ih e2 hrec
        | ok tail => rw [hrec] at h; simp at h

theorem addInputsTaproot_mismatch (expected : String) (f : Utxo → Option String) :
    ∀ l : List Utxo, (∀ u ∈ l, ∃ s, f u = some s) →
      (∃ u ∈ l, f u ≠ some expected) →
      ∃ t v s, s ≠ expected ∧
        addInputsTaproot expected f l = .error (.scriptMismatch t v s expected) := by
  intro l
  induction l with
  | nil => intro _ hbad; simp at hbad
  | cons u rest ih =>
    intro hall hbad
    obtain ⟨s, hs⟩ := hall u (List.mem_cons_self u rest)
    by_cases hmatch : s = expected
    · -- the head matches: some later UTXO must be the mismatching one
      have hbad2 : ∃ v ∈ rest, f v ≠ some expected := by
        rcases hbad with ⟨v, hv, hvne⟩
        rcases List.mem_cons.mp hv with rfl | hvmem
        · exact absurd (hmatch ▸ hs) hvne
        · exact ⟨v, hvmem, hvne⟩
      obtain ⟨t, v, s2, hne2, hrec⟩ :=
        ih (fun w hw => hall w (List.mem_cons_of_mem u hw)) hbad2
      refine ⟨t, v, s2, hne2, ?_⟩
      simp only [addInputsTaproot, hs, hmatch, hrec]
      simp
    · refine ⟨u.txid, u.vout, s, hmatch, ?_⟩
      simp only [addInputsTaproot, hs, if_pos hmatch]

theorem addInputsP2wpkh_all_fetched (f : Utxo → Option String) :
    ∀ l : List Utxo, (∀ u ∈ l, ∃ s, f u = some s) →
      sumInputValues (addInputsP2wpkh f l) = sumVals l ∧
      (addInputsP2wpkh f l).length = l.length := by
  intro l
  induction l with
  | nil => intro _; exact ⟨rfl, rfl⟩
  | cons u rest ih =>
    intro hall
    obtain ⟨s, hs⟩ := hall u (List.mem_cons_self u rest)
    obtain ⟨hsum, hlen⟩ := ih (fun w hw => hall w (List.mem_cons_of_mem u hw))
    constructor
    · simp only [addInputsP2wpkh, hs, sumInputValues, List.map_cons, List.sum_cons]
      rw [show ((addInputsP2wpkh f rest).map PsbtInput.value).sum =
            sumInputValues (addInputsP2wpkh f rest) from rfl, hsum]
      simp [sumVals]
    · simp only [addInputsP2wpkh, hs, List.length_cons, hlen]

theorem addInputsP2wpkh_keeps (f : Utxo → Option String) (u : Utxo) (s : String)
    (rest : List Utxo) (hs : f u = some s) :
    addInputsP2wpkh f (u :: rest) =
      PsbtInput.mk u.txid u.vout s u.value :: addInputsP2wpkh f rest := by
  simp only [addInputsP2wpkh, hs]

theorem outputsSum_cons (o : TxOutput) (l : List TxOutput) :
    outputsSum (o :: l) = o.value + outputsSum l := by
  simp [outputsSum]

theorem outputsSum_recipients (addresses : List String) (amount : Nat) :
    outputsSum (addresses.map (fun a => TxOutput.mk a amount)) = amount * addresses.length := by
  induction addresses with
  | nil => simp [outputsSum]
  | cons a rest ih =>
    simp only [List.map_cons, outputsSum_cons, ih, List.length_cons]
    rw [Nat.mul_succ]; omega

theorem sumInputValues_mapped (expected : String) (l : List Utxo) :
    sumInputValues (l.map (fun u => PsbtInput.mk u.txid u.vout expected u.value)) = sumVals l := by
  induction l with
  | nil => rfl
  | cons u rest ih =>
    simp only [List.map_cons, sumInputValues, List.sum_cons, sumVals] at ih ⊢
    omega

/-- C1 (amended, taproot variant): whenever the selection phase of `batchSend`
stops with the balance check satisfied, the selection is a prefix of the
candidate UTXOs in arrival order (`utxos.take k`), the accumulated total is the
sum of the selected values, the fee estimate left by the loop is the one for
`k` inputs and `recipients + 1` outputs, the stop bound
`sum(selected) >= totalPayout + fee(k, recipients+1, rate)` holds at the
stopping point, and it fails for every strict prefix of the selection. -/
theorem C1_greedy_selector (rate m payout : Nat) (utxos : List Utxo)
    (hp : 0 < payout)
    (hstop : payout + (selectUtxos rate m payout utxos).2.2 ≤
      (selectUtxos rate m payout utxos).2.1) :
    ∃ k, k ≤ utxos.length ∧
      (selectUtxos rate m payout utxos).1 = utxos.take k ∧
      (selectUtxos rate m payout utxos).2.1 = sumVals (utxos.take k) ∧
      (selectUtxos rate m payout utxos).2.2 = feeEstimate k (m + 1) rate ∧
      stopBound rate m payout (utxos.take k) ∧
      ∀ j, j < k → ¬ stopBound rate m payout (utxos.take j) := by
  have hnil : ¬ stopBound rate m payout ([] : List Utxo) := by
    simp only [stopBound, sumVals, List.map_nil, List.sum_nil, List.length_nil]
    omega
  cases utxos with
  | nil =>
    simp only [selectUtxos, selGo] at hstop
    omega
  | cons u us =>
    have hsel : selectUtxos rate m payout (u :: us) =
        if payout + feeEstimate 1 (m + 1) rate ≤ u.value then
          ([u], u.value, feeEstimate 1 (m + 1) rate)
        else selGo rate m payout us [u] u.value (feeEstimate 1 (m + 1) rate) := by
      simp [selectUtxos, selGo]
    by_cases hc : payout + feeEstimate 1 (m + 1) rate ≤ u.value
    · refine ⟨1, by simp, ?_, ?_, ?_, ?_, ?_⟩
      · rw [hsel, if_pos hc]; simp
      · rw [hsel, if_pos hc]; simp [sumVals]
      · rw [hsel, if_pos hc]
      · simp only [List.take_succ_cons, List.take_zero, stopBound, sumVals,
          List.map_cons, List.map_nil, List.sum_cons, List.sum_nil,
          List.length_cons, List.length_nil, Nat.zero_add]
        omega
      · intro j hj
        have : j = 0 := by omega
        rw [this, List.take_zero]
        exact hnil
    · have h1le : (1 : Nat) ≤ u.value + 1 := by omega
      obtain ⟨k, hk, h1, h2, h3, h4, h5⟩ :=
        selGo_spec rate m payout us [u] u.value (feeEstimate 1 (m + 1) rate)
          (by simp) (by simp [sumVals]) (by simp)
          (by
            intro j hj
            simp only [List.length_cons, List.length_nil] at hj
            match j, hj with
            | 0, _ => simpa using hnil
            | 1, _ =>
              simp only [List.take_succ_cons, List.take_zero]
              intro hs
              apply hc
              simp only [stopBound, sumVals, List.map_cons, List.map_nil,
                List.sum_cons, List.sum_nil, List.length_cons, List.length_nil,
                Nat.zero_add] at hs
              omega)
      have hform : [u] ++ us.take k = (u :: us).take (k + 1) := by
        simp [List.take_succ_cons]
      have hlen : ([u] ++ us.take k).length = k + 1 := by
        simp only [List.length_append, List.length_cons, List.length_nil, List.length_take]
        omega
      rw [hsel, if_neg hc] at hstop ⊢
      refine ⟨k + 1, by simp; omega, ?_, ?_, ?_, ?_, ?_⟩
      · rw [h1, hform]
      · rw [h2, hform]
      · rw [h3, hlen]
      · rw [← hform]
        have : stopBound rate m payout ([u] ++ us.take k) := by
          rw [stopBound, ← h2, ← h3]
          exact hstop
        exact this
      · intro j hj
        have hj' : j < ([u] ++ us.take k).length := by omega
        have := h4 j hj'
        rw [hform] at this
        rwa [List.take_take, Nat.min_eq_left (by omega)] at this

/-- C5: if the selection phase succeeded (the accumulated input value passed
the balance check of main.js line 280), the change
`totalInput - totalAmountToSend - finalFee` is non-negative and the
negative-change internal-fault branch (main.js lines 345-348) is unreachable:
`batchSendBuild` can never return the `negativeChange` error. -/
theorem C5_change_nonnegative (rate amount : Nat) (addresses : List String)
    (fromAddress expected : String) (f : Utxo → Option String) (utxos : List Utxo)
    (hstop : amount * addresses.length +
        (selectUtxos rate addresses.length (amount * addresses.length) utxos).2.2 ≤
      (selectUtxos rate addresses.length (amount * addresses.length) utxos).2.1) :
    0 ≤ changeValue rate addresses amount utxos ∧
    ∀ c, batchSendBuild rate addresses amount fromAddress expected f utxos ≠
      .error (.negativeChange c) := by
  constructor
  · simp only [changeValue]
    omega
  · intro c hEq
    simp only [batchSendBuild] at hEq
    by_cases hemp : utxos = []
    · rw [if_pos hemp] at hEq
      simp at hEq
    · rw [if_neg hemp] at hEq
      split at hEq
      · simp at hEq
      · split at hEq
        · next e heq =>
          simp only [Except.error.injEq] at hEq
          rcases addInputsTaproot_error_shape expected f _ e heq with ⟨t, v, he⟩ | ⟨t, v, s, _, he⟩ <;>
            simp [he] at hEq
        · next tail heq =>
          split at hEq
          · next hneg => omega
          · simp at hEq

theorem selGo_total (rate m payout : Nat) :
    ∀ (rest sel : List Utxo) (tot fee : Nat), tot = sumVals sel →
      (selGo rate m payout rest sel tot fee).2.1 =
        sumVals (selGo rate m payout rest sel tot fee).1 := by
  intro rest
  induction rest with
  | nil => intro sel tot fee htot; simpa [selGo] using htot
  | cons u rs ih =>
    intro sel tot fee htot
    have htot2 : tot + u.value = sumVals (sel ++ [u]) := by
      rw [htot, sumVals_append]; simp [sumVals]
    simp only [selGo]
    by_cases hc : payout + feeEstimate (sel ++ [u]).length (m + 1) rate ≤ tot + u.value
    · rw [if_pos hc]; exact htot2
    · rw [if_neg hc]
      exact ih (sel ++ [u]) (tot + u.value) _ htot2

theorem addInputsTaproot_ok_map (expected : String) (f : Utxo → Option String) :
    ∀ (l : List Utxo) (ins : List PsbtInput), addInputsTaproot expected f l = .ok ins →
      ins = l.map (fun u => PsbtInput.mk u.txid u.vout expected u.value) := by
  intro l
  induction l with
  | nil =>
    intro ins h
    simp only [addInputsTaproot, Except.ok.injEq] at h
    simp [← h]
  | cons u rest ih =>
    intro ins h
    simp only [addInputsTaproot] at h
    cases hf : f u with
    | none => simp [hf] at h
    | some s =>
      simp only [hf] at h
      by_cases hs : s ≠ expected
      · rw [if_pos hs] at h; simp at h
      · rw [if_neg hs] at h
        push_neg at hs
        cases hrec : addInputsTaproot expected f rest with
        | error e => rw [hrec] at h; simp at h
        | ok tail =>
          rw [hrec] at h
          simp only [Except.ok.injEq] at h
          rw [← h, ih tail hrec, List.map_cons, hs]

/-- Inversion of a successful `batchSendBuild`: the fields of the built PSBT in
terms of the selection result, and the change-output rule
(appended exactly when `546 <= change`). -/
theorem batchSendBuild_ok_inv (rate amount : Nat) (addresses : List String)
    (fromAddress expected : String) (f : Utxo → Option String) (utxos : List Utxo) (b : Built)
    (h : batchSendBuild rate addresses amount fromAddress expected f utxos = .ok b) :
    b.selected = (selectUtxos rate addresses.length (amount * addresses.length) utxos).1 ∧
    addInputsTaproot expected f
      (selectUtxos rate addresses.length (amount * addresses.length) utxos).1 = .ok b.inputs ∧
    b.fee = (selectUtxos rate addresses.length (amount * addresses.length) utxos).2.2 ∧
    b.change = changeValue rate addresses amount utxos ∧
    amount * addresses.length + b.fee ≤
      (selectUtxos rate addresses.length (amount * addresses.length) utxos).2.1 ∧
    b.outputs = addresses.map (fun a => TxOutput.mk a amount) ++
      (if 546 ≤ b.change then [TxOutput.mk fromAddress b.change.toNat] else []) := by
  simp only [batchSendBuild] at h
  by_cases hemp : utxos = []
  · rw [if_pos hemp] at h; simp at h
  · rw [if_neg hemp] at h
    split at h
    · simp at h
    · next hge =>
      split at h
      · simp at h
      · next tail heq =>
        split at h
        · simp at h
        · next hpos =>
          simp only [Except.ok.injEq] at h
          subst h
          refine ⟨rfl, heq, rfl, ?_, ?_, rfl⟩
          · dsimp only
            simp only [changeValue]
          · dsimp only
            omega

/-- Inversion of a successful `createTransactionBuild`: the fields of the built
PSBT, and the change-output rule (`546 < change`, strictly). -/
theorem createTransactionBuild_ok_inv (feeRate : Nat) (addresses : List String)
    (sendSatoshis : Nat) (address : String) (f : Utxo → Option String) (utxos : List Utxo)
    (b : Built)
    (h : createTransactionBuild feeRate addresses sendSatoshis address f utxos = .ok b) :
    b.inputs = addInputsP2wpkh f utxos ∧
    b.fee = feeEstimateP2wpkh utxos.length (addresses.length + 1) feeRate ∧
    (b.change : Int) = (sumInputValues (addInputsP2wpkh f utxos) : Int) -
      (addresses.length * sendSatoshis : Int) - (b.fee : Int) ∧
    b.outputs = addresses.map (fun a => TxOutput.mk a sendSatoshis) ++
      (if 546 < b.change then [TxOutput.mk address b.change.toNat] else []) := by
  simp only [createTransactionBuild] at h
  by_cases hemp : utxos = []
  · rw [if_pos hemp] at h; simp at h
  · rw [if_neg hemp] at h
    split at h
    · simp at h
    · split at h
      · simp at h
      · simp only [Except.ok.injEq] at h
        subst h
        refine ⟨rfl, rfl, ?_, rfl⟩
        push_cast
        ring

instance {e a : Type} [DecidableEq e] [DecidableEq a] : DecidableEq (Except e a) := fun x y =>
  match x, y with
  | .error e1, .error e2 =>
    if h : e1 = e2 then isTrue (by rw [h]) else isFalse (fun hxy => by cases hxy; exact h rfl)
  | .ok a1, .ok a2 =>
    if h : a1 = a2 then isTrue (by rw [h]) else isFalse (fun hxy => by cases hxy; exact h rfl)
  | .error _, .ok _ => isFalse (fun hxy => Except.noConfusion hxy)
  | .ok _, .error _ => isFalse (fun hxy => Except.noConfusion hxy)

theorem selectUtxos_total (rate m payout : Nat) (utxos : List Utxo) :
    (selectUtxos rate m payout utxos).2.1 = sumVals (selectUtxos rate m payout utxos).1 :=
  selGo_total rate m payout utxos [] 0 0 rfl

/-- C6 (amended): in every successful build, the taproot variant appends the
change output paying the funding address exactly when `change >= 546`
(main.js line 350), while the P2WPKH variant appends it exactly when
`change > 546` (createTransaction line 710, strictly greater) — so at exactly
546 satoshis the two variants disagree and the P2WPKH variant absorbs the
change into the fee. -/
theorem C6_dust_rule (rate amount rate2 send2 : Nat) (addresses addresses2 : List String)
    (fromAddress expected addr2 : String) (f f2 : Utxo → Option String)
    (utxos utxos2 : List Utxo) (b b2 : Built)
    (h : batchSendBuild rate addresses amount fromAddress expected f utxos = .ok b)
    (h2 : createTransactionBuild rate2 addresses2 send2 addr2 f2 utxos2 = .ok b2) :
    b.outputs = addresses.map (fun a => TxOutput.mk a amount) ++
      (if 546 ≤ b.change then [TxOutput.mk fromAddress b.change.toNat] else []) ∧
    b2.outputs = addresses2.map (fun a => TxOutput.mk a send2) ++
      (if 546 < b2.change then [TxOutput.mk addr2 b2.change.toNat] else []) :=
  ⟨(batchSendBuild_ok_inv rate amount addresses fromAddress expected f utxos b h).2.2.2.2.2,
   (createTransactionBuild_ok_inv rate2 addresses2 send2 addr2 f2 utxos2 b2 h2).2.2.2⟩

/-- C6 witness: a concrete taproot build with change 89846 (>= 546, change
output present) and a concrete P2WPKH build with change 9853 (> 546, change
output present), both matching the proved change-output rules. -/
theorem C6_dust_rule_witness :
    (batchSendBuild 1 ["r1"] 10000 "from" "good" (fun _ => some "good") [⟨"a", 0, 100000⟩] =
      .ok ⟨[⟨"a", 0, 100000⟩], [⟨"a", 0, "good", 100000⟩],
           [⟨"r1", 10000⟩, ⟨"from", 89846⟩], 154, 89846⟩) ∧
    ([TxOutput.mk "r1" 10000, TxOutput.mk "from" 89846] =
      (["r1"] : List String).map (fun a => TxOutput.mk a 10000) ++
        (if (546 : Int) ≤ 89846 then [TxOutput.mk "from" ((89846 : Int)).toNat] else []) ∧
     [TxOutput.mk "r1" 10000, TxOutput.mk "caddr" 9853] =
      (["r1"] : List String).map (fun a => TxOutput.mk a 10000) ++
        (if (546 : Int) < 9853 then [TxOutput.mk "caddr" ((9853 : Int)).toNat] else [])) :=
  ⟨by decide,
   C6_dust_rule 1 10000 1 10000 ["r1"] ["r1"] "from" "good" "caddr"
     (fun _ => some "good") (fun _ => some "cs") [⟨"a", 0, 100000⟩] [⟨"a", 0, 20000⟩]
     ⟨[⟨"a", 0, 100000⟩], [⟨"a", 0, "good", 100000⟩],
      [⟨"r1", 10000⟩, ⟨"from", 89846⟩], 154, 89846⟩
     ⟨[⟨"a", 0, 20000⟩], [⟨"a", 0, "cs", 20000⟩],
      [⟨"r1", 10000⟩, ⟨"caddr", 9853⟩], 147, 9853⟩
     (by decide) (by decide)⟩

/-- C6 counterexample: in the P2WPKH variant a build whose change is exactly
546 satoshis creates NO change output (`546 > 546` is false), although the
claim (`appended if and only if change >= 546`) requires one: the output list
contains no output paying the funding address "from". -/
theorem C6_counterexample :
    createTransactionBuild 1 ["r1"] 10000 "from" (fun _ => some "s") [⟨"a", 0, 10693⟩] =
      .ok ⟨[⟨"a", 0, 10693⟩], [⟨"a", 0, "s", 10693⟩], [⟨"r1", 10000⟩], 147, 546⟩ ∧
    (546 : Int) ≤ 546 ∧
    (∀ o ∈ [TxOutput.mk "r1" 10000], o.address ≠ "from") :=
  ⟨by decide, by decide, by decide⟩

/-- C7 (amended): in a successful taproot build with `change < 546` there is no
change output, and the satoshis balance as
`sum(outputValues) + finalFee + change = totalInput`; the claimed equality
`sum(outputValues) + finalFee = totalInput` holds exactly when the absorbed
change is zero, and fails whenever `0 < change < 546`. -/
theorem C7_small_change_accounting (rate amount : Nat) (addresses : List String)
    (fromAddress expected : String) (f : Utxo → Option String) (utxos : List Utxo) (b : Built)
    (h : batchSendBuild rate addresses amount fromAddress expected f utxos = .ok b)
    (hsmall : b.change < 546) :
    b.outputs = addresses.map (fun a => TxOutput.mk a amount) ∧
    (outputsSum b.outputs : Int) + (b.fee : Int) + b.change = (sumInputValues b.inputs : Int) ∧
    (b.change ≠ 0 →
      (outputsSum b.outputs : Int) + (b.fee : Int) ≠ (sumInputValues b.inputs : Int)) := by
  obtain ⟨hselb, hadd, hfee, hch, hguard, houts⟩ :=
    batchSendBuild_ok_inv rate amount addresses fromAddress expected f utxos b h
  have houts2 : b.outputs = addresses.map (fun a => TxOutput.mk a amount) := by
    rw [houts, if_neg (by omega), List.append_nil]
  have hsum : sumInputValues b.inputs =
      (selectUtxos rate addresses.length (amount * addresses.length) utxos).2.1 := by
    have hmap := addInputsTaproot_ok_map expected f _ _ hadd
    rw [hmap, sumInputValues_mapped, ← selectUtxos_total]
  refine ⟨houts2, ?_, ?_⟩
  · rw [houts2, outputsSum_recipients, hsum, hch, hfee]
    simp only [changeValue]
    push_cast
    ring
  · intro hnz
    rw [hch] at hnz
    rw [houts2, outputsSum_recipients, hsum, hfee]
    simp only [changeValue] at hnz
    intro hbad
    apply hnz
    omega

/-- C7 witness: a concrete taproot build with change 100 < 546: no change
output, and the outputs-plus-fee-plus-change accounting holds while
`sum(outputs) + fee` alone misses `totalInput` by the absorbed 100 sats. -/
theorem C7_small_change_accounting_witness :
    (batchSendBuild 1 ["r1"] 10000 "from" "good" (fun _ => some "good") [⟨"a", 0, 10254⟩] =
      .ok ⟨[⟨"a", 0, 10254⟩], [⟨"a", 0, "good", 10254⟩], [⟨"r1", 10000⟩], 154, 100⟩) ∧
    ((100 : Int) < 546) ∧
    ([TxOutput.mk "r1" 10000] = (["r1"] : List String).map (fun a => TxOutput.mk a 10000) ∧
     (outputsSum [TxOutput.mk "r1" 10000] : Int) + ((154 : Nat) : Int) + (100 : Int) =
       (sumInputValues [PsbtInput.mk "a" 0 "good" 10254] : Int) ∧
     ((100 : Int) ≠ 0 → (outputsSum [TxOutput.mk "r1" 10000] : Int) + ((154 : Nat) : Int) ≠
       (sumInputValues [PsbtInput.mk "a" 0 "good" 10254] : Int))) :=
  ⟨by decide, by decide,
    C7_small_change_accounting 1 10000 ["r1"] "from" "good" (fun _ => some "good")
      [⟨"a", 0, 10254⟩]
      ⟨[⟨"a", 0, 10254⟩], [⟨"a", 0, "good", 10254⟩], [⟨"r1", 10000⟩], 154, 100⟩
      (by decide) (by decide)⟩

/-- C7 counterexample: a successful taproot build with change 100 < 546 where
`sum(outputValues) + computedFee = 10154` but `totalInput = 10254`: the claimed
exact equality fails; the 100 absorbed satoshis go to the miner on top of the
computed fee. -/
theorem C7_counterexample :
    batchSendBuild 1 ["r1"] 10000 "from" "good" (fun _ => some "good") [⟨"a", 0, 10254⟩] =
      .ok ⟨[⟨"a", 0, 10254⟩], [⟨"a", 0, "good", 10254⟩], [⟨"r1", 10000⟩], 154, 100⟩ ∧
    (100 : Int) < 546 ∧
    outputsSum [TxOutput.mk "r1" 10000] + 154 ≠ sumInputValues [PsbtInput.mk "a" 0 "good" 10254] :=
  ⟨by decide, by decide, by decide⟩

/-- C1 witness: the greedy-selector theorem applied to a concrete run with one
candidate UTXO of 100000 sats, one recipient of 10000 sats, rate 1 sat/vB:
the loop stops after the first UTXO (fee 154, 100000 >= 10154). -/
theorem C1_greedy_selector_witness :
    0 < 10000 ∧
    10000 + (selectUtxos 1 1 10000 [⟨"a", 0, 100000⟩]).2.2 ≤
      (selectUtxos 1 1 10000 [⟨"a", 0, 100000⟩]).2.1 ∧
    (∃ k, k ≤ ([⟨"a", 0, 100000⟩] : List Utxo).length ∧
      (selectUtxos 1 1 10000 [⟨"a", 0, 100000⟩]).1 =
        ([⟨"a", 0, 100000⟩] : List Utxo).take k ∧
      (selectUtxos 1 1 10000 [⟨"a", 0, 100000⟩]).2.1 =
        sumVals (([⟨"a", 0, 100000⟩] : List Utxo).take k) ∧
      (selectUtxos 1 1 10000 [⟨"a", 0, 100000⟩]).2.2 = feeEstimate k (1 + 1) 1 ∧
      stopBound 1 1 10000 (([⟨"a", 0, 100000⟩] : List Utxo).take k) ∧
      ∀ j, j < k → ¬ stopBound 1 1 10000 (([⟨"a", 0, 100000⟩] : List Utxo).take j)) :=
  ⟨by decide, by decide,
    C1_greedy_selector 1 1 10000 [⟨"a", 0, 100000⟩] (by decide) (by decide)⟩

/-- C1 counterexample: the P2WPKH variant (its input loop is headed by the
comment "select UTXOs") performs no early stop: with candidates of 100000 and
50000 sats, one recipient of 10000 sats and rate 1, BOTH UTXOs end up as inputs
of the built transaction although the strict prefix consisting of the first
UTXO alone already satisfies `payout + fee(1 input)` (10000 + 147 <= 100000) —
so the claimed stopping rule and the strict-prefix property fail there. -/
theorem C1_counterexample :
    createTransactionBuild 1 ["r1"] 10000 "from" (fun _ => some "s")
        [⟨"a", 0, 100000⟩, ⟨"b", 0, 50000⟩] =
      .ok ⟨[⟨"a", 0, 100000⟩, ⟨"b", 0, 50000⟩],
           [⟨"a", 0, "s", 100000⟩, ⟨"b", 0, "s", 50000⟩],
           [⟨"r1", 10000⟩, ⟨"from", 139785⟩], 215, 139785⟩ ∧
    10000 + feeEstimateP2wpkh 1 (1 + 1) 1 ≤ sumVals [⟨"a", 0, 100000⟩] :=
  ⟨by decide, by decide⟩

/-- C5 witness: the non-negative-change theorem applied to a concrete run:
one UTXO of 100000 sats, one recipient of 10000 sats, rate 1 (fee 154,
change 89846 >= 0) — the negative-change branch is unreachable. -/
theorem C5_change_nonnegative_witness :
    (10000 * (["r1"] : List String).length +
        (selectUtxos 1 (["r1"] : List String).length
          (10000 * (["r1"] : List String).length) [⟨"a", 0, 100000⟩]).2.2 ≤
      (selectUtxos 1 (["r1"] : List String).length
        (10000 * (["r1"] : List String).length) [⟨"a", 0, 100000⟩]).2.1) ∧
    (0 ≤ changeValue 1 ["r1"] 10000 [⟨"a", 0, 100000⟩] ∧
     ∀ c, batchSendBuild 1 ["r1"] 10000 "from" "good" (fun _ => some "good")
        [⟨"a", 0, 100000⟩] ≠ .error (.negativeChange c)) :=
  ⟨by decide,
   C5_change_nonnegative 1 10000 ["r1"] "from" "good" (fun _ => some "good")
     [⟨"a", 0, 100000⟩] (by decide)⟩

/-- C8: if the candidate list is exhausted without the accumulated input value
reaching `totalPayout + feeEstimate` (no prefix, including the full list, ever
satisfies the stop bound), the taproot run fails with an insufficient-funds
error reporting the required total (`payout + fee(allInputs)`) versus the
available total (`sum of all UTXO values`), before any signature is produced
(`batchSendRun` ends in that error).  The P2WPKH variant likewise throws an
insufficient-funds error reporting required versus available totals before its
signing loop whenever all fetched inputs together cannot cover
`totalAddressesAmount + estimatedFee`. -/
theorem C8_insufficient_funds (gp : Nat → List Nat) (ss : TaprootSighash → Nat → Nat)
    (sv : Nat → TaprootSighash → List Nat → Bool) (d rate amount : Nat)
    (addresses : List String) (fromAddress expected : String)
    (f : Utxo → Option String) (utxos : List Utxo)
    (hne : utxos ≠ [])
    (hfail : ∀ j, j ≤ utxos.length →
      ¬ stopBound rate addresses.length (amount * addresses.length) (utxos.take j)) :
    batchSendRun gp ss sv d rate addresses amount fromAddress expected f utxos =
      .error (.insufficientFunds
        (amount * addresses.length + feeEstimate utxos.length (addresses.length + 1) rate)
        (sumVals utxos)) ∧
    (∀ (rate2 send2 : Nat) (addresses2 : List String) (addr2 : String)
        (f2 : Utxo → Option String) (utxos2 : List Utxo),
      utxos2 ≠ [] → (∀ u ∈ utxos2, ∃ s, f2 u = some s) →
      sumVals utxos2 < addresses2.length * send2 +
        feeEstimateP2wpkh utxos2.length (addresses2.length + 1) rate2 →
      createTransactionBuild rate2 addresses2 send2 addr2 f2 utxos2 =
        .error (.insufficientFunds
          (addresses2.length * send2 +
            feeEstimateP2wpkh utxos2.length (addresses2.length + 1) rate2)
          (sumVals utxos2))) := by
  constructor
  · cases utxos with
    | nil => exact absurd rfl hne
    | cons u us =>
      have hnil0 : ¬ stopBound rate addresses.length (amount * addresses.length)
          ([] : List Utxo) := by
        simpa using hfail 0 (by omega)
      have hsel : selectUtxos rate addresses.length (amount * addresses.length) (u :: us) =
          if amount * addresses.length + feeEstimate 1 (addresses.length + 1) rate ≤ u.value then
            ([u], u.value, feeEstimate 1 (addresses.length + 1) rate)
          else selGo rate addresses.length (amount * addresses.length) us [u] u.value
            (feeEstimate 1 (addresses.length + 1) rate) := by
        simp [selectUtxos, selGo]
      have hone : ¬ stopBound rate addresses.length (amount * addresses.length) [u] := by
        simpa using hfail 1 (by simp)
      by_cases hc : amount * addresses.length +
          feeEstimate 1 (addresses.length + 1) rate ≤ u.value
      · exfalso
        apply hone
        simp only [stopBound, sumVals, List.map_cons, List.map_nil, List.sum_cons,
          List.sum_nil, List.length_cons, List.length_nil, Nat.zero_add]
        omega
      · obtain ⟨k, hk, h1, h2, h3, h4, h5⟩ :=
          selGo_spec rate addresses.length (amount * addresses.length) us [u] u.value
            (feeEstimate 1 (addresses.length + 1) rate)
            (by simp) (by simp [sumVals]) (by simp)
            (by
              intro j hj
              simp only [List.length_cons, List.length_nil] at hj
              match j, hj with
              | 0, _ => simpa using hnil0
              | 1, _ =>
                simp only [List.take_succ_cons, List.take_zero]
                exact hone)
        have hform : [u] ++ us.take k = (u :: us).take (k + 1) := by
          simp [List.take_succ_cons]
        have hnostop : ¬ stopBound rate addresses.length (amount * addresses.length)
            ([u] ++ us.take k) := by
          rw [hform]
          exact hfail (k + 1) (by simp; omega)
        have hkall : k = us.length := h5 hnostop
        have hfull : [u] ++ us.take k = u :: us := by
          rw [hkall, List.take_length]
          simp
        rw [hfull] at h2 h3
        have hnofull : ¬ stopBound rate addresses.length (amount * addresses.length)
            (u :: us) := by
          rw [← hfull]
          exact hnostop
        have hguard : sumVals (u :: us) < amount * addresses.length +
            feeEstimate (u :: us).length (addresses.length + 1) rate := by
          simp only [stopBound, not_le] at hnofull
          exact hnofull
        simp only [batchSendRun, batchSendBuild]
        rw [if_neg (show ¬(u :: us = []) by simp)]
        rw [hsel, if_neg hc]
        rw [h2, h3]
        rw [if_pos hguard]
  · intro rate2 send2 addresses2 addr2 f2 utxos2 hne2 hall2 hlt2
    obtain ⟨hsum2, hlen2⟩ := addInputsP2wpkh_all_fetched f2 utxos2 hall2
    have hinne : addInputsP2wpkh f2 utxos2 ≠ [] := by
      intro hi
      apply hne2
      rw [hi] at hlen2
      simp only [List.length_nil] at hlen2
      exact List.eq_nil_of_length_eq_zero hlen2.symm
    simp only [createTransactionBuild]
    rw [if_neg hne2, if_neg hinne]
    rw [hsum2]
    rw [if_pos hlt2]

/-- C8 witness: a concrete run with a single 1000-sat UTXO, one recipient of
10000 sats and rate 1: no prefix reaches the bound, and the run ends in the
insufficient-funds error reporting 10154 required versus 1000 available. -/
theorem C8_insufficient_funds_witness :
    (([⟨"a", 0, 1000⟩] : List Utxo) ≠ []) ∧
    (∀ j, j ≤ ([⟨"a", 0, 1000⟩] : List Utxo).length →
      ¬ stopBound 1 (["r1"] : List String).length (10000 * (["r1"] : List String).length)
        (([⟨"a", 0, 1000⟩] : List Utxo).take j)) ∧
    (batchSendRun (fun _ => [2]) (fun _ _ => 7) (fun _ _ _ => true) 1 1 ["r1"] 10000
        "from" "good" (fun _ => some "good") [⟨"a", 0, 1000⟩] =
      .error (.insufficientFunds
        (10000 * (["r1"] : List String).length +
          feeEstimate ([⟨"a", 0, 1000⟩] : List Utxo).length ((["r1"] : List String).length + 1) 1)
        (sumVals [⟨"a", 0, 1000⟩])) ∧
    (∀ (rate2 send2 : Nat) (addresses2 : List String) (addr2 : String)
        (f2 : Utxo → Option String) (utxos2 : List Utxo),
      utxos2 ≠ [] → (∀ u ∈ utxos2, ∃ s, f2 u = some s) →
      sumVals utxos2 < addresses2.length * send2 +
        feeEstimateP2wpkh utxos2.length (addresses2.length + 1) rate2 →
      createTransactionBuild rate2 addresses2 send2 addr2 f2 utxos2 =
        .error (.insufficientFunds
          (addresses2.length * send2 +
            feeEstimateP2wpkh utxos2.length (addresses2.length + 1) rate2)
          (sumVals utxos2)))) :=
  ⟨by decide,
   by
    intro j hj
    simp only [List.length_cons, List.length_nil] at hj
    match j, hj with
    | 0, _ => decide
    | 1, _ => decide,
   C8_insufficient_funds (fun _ => [2]) (fun _ _ => 7) (fun _ _ _ => true) 1 1 10000
     ["r1"] "from" "good" (fun _ => some "good") [⟨"a", 0, 1000⟩] (by decide)
     (by
      intro j hj
      simp only [List.length_cons, List.length_nil] at hj
      match j, hj with
      | 0, _ => decide
      | 1, _ => decide)⟩

/-- C3 (amended): in the taproot variant, whenever the selection succeeded, all
previous-output scripts could be fetched and some selected UTXO's fetched
script differs from the expected funding script, the whole run aborts with a
script-mismatch error carrying that script, before any signature is produced
(`batchSendRun` ends in the error, so the signing loop never runs).  The
P2WPKH variant performs NO such comparison: any UTXO whose script was fetched
is added to the transaction unconditionally, whatever the script is. -/
theorem C3_script_mismatch (gp : Nat → List Nat) (ss : TaprootSighash → Nat → Nat)
    (sv : Nat → TaprootSighash → List Nat → Bool) (d rate amount : Nat)
    (addresses : List String) (fromAddress expected : String)
    (f : Utxo → Option String) (utxos : List Utxo)
    (hstop : amount * addresses.length +
        (selectUtxos rate addresses.length (amount * addresses.length) utxos).2.2 ≤
      (selectUtxos rate addresses.length (amount * addresses.length) utxos).2.1)
    (hfetch : ∀ u ∈ (selectUtxos rate addresses.length (amount * addresses.length) utxos).1,
      ∃ s, f u = some s)
    (hbad : ∃ u ∈ (selectUtxos rate addresses.length (amount * addresses.length) utxos).1,
      f u ≠ some expected) :
    (∃ t v s, s ≠ expected ∧
      batchSendRun gp ss sv d rate addresses amount fromAddress expected f utxos =
        .error (.scriptMismatch t v s expected)) ∧
    (∀ (f2 : Utxo → Option String) (u : Utxo) (s : String) (rest : List Utxo),
      f2 u = some s →
      addInputsP2wpkh f2 (u :: rest) =
        PsbtInput.mk u.txid u.vout s u.value :: addInputsP2wpkh f2 rest) := by
  have hne : utxos ≠ [] := by
    intro he
    subst he
    obtain ⟨u, hu, _⟩ := hbad
    simp [selectUtxos, selGo] at hu
  obtain ⟨t, v, s, hsne, herr⟩ := addInputsTaproot_mismatch expected f _ hfetch hbad
  refine ⟨⟨t, v, s, hsne, ?_⟩, fun f2 u s2 rest hs2 => addInputsP2wpkh_keeps f2 u s2 rest hs2⟩
  simp only [batchSendRun, batchSendBuild]
  rw [if_neg hne]
  have hguard : ¬((selectUtxos rate addresses.length (amount * addresses.length) utxos).2.1 <
      amount * addresses.length +
        (selectUtxos rate addresses.length (amount * addresses.length) utxos).2.2) := by
    omega
  rw [if_neg hguard, herr]

/-- C3 witness: a concrete run whose only selected UTXO fetches the script
"bad" while "good" is expected: the run ends in a script-mismatch abort, and
the P2WPKH input loop keeps any fetched UTXO regardless of its script. -/
theorem C3_script_mismatch_witness :
    (10000 * (["r1"] : List String).length +
        (selectUtxos 1 (["r1"] : List String).length
          (10000 * (["r1"] : List String).length) [⟨"a", 0, 100000⟩]).2.2 ≤
      (selectUtxos 1 (["r1"] : List String).length
        (10000 * (["r1"] : List String).length) [⟨"a", 0, 100000⟩]).2.1) ∧
    ((∃ t v s, s ≠ "good" ∧
      batchSendRun (fun _ => [2]) (fun _ _ => 7) (fun _ _ _ => true) 1 1 ["r1"] 10000
          "from" "good" (fun _ => some "bad") [⟨"a", 0, 100000⟩] =
        .error (.scriptMismatch t v s "good")) ∧
    (∀ (f2 : Utxo → Option String) (u : Utxo) (s : String) (rest : List Utxo),
      f2 u = some s →
      addInputsP2wpkh f2 (u :: rest) =
        PsbtInput.mk u.txid u.vout s u.value :: addInputsP2wpkh f2 rest)) :=
  ⟨by decide,
   C3_script_mismatch (fun _ => [2]) (fun _ _ => 7) (fun _ _ _ => true) 1 1 10000
     ["r1"] "from" "good" (fun _ => some "bad") [⟨"a", 0, 100000⟩]
     (by decide)
     (fun u _ => ⟨"bad", rfl⟩)
     ⟨⟨"a", 0, 100000⟩, by decide, by decide⟩⟩

/-- C3 counterexample: in the P2WPKH variant a fetched UTXO whose
previous-output script "badscript" differs from the funding script (take
"0014ffff" as the expected script) is NOT rejected: the run does not abort,
the UTXO is built into the transaction (its input carries the mismatching
script) and the build succeeds — contradicting the claim that every mismatching
fetched UTXO aborts the run before any transaction is built from it. -/
theorem C3_counterexample :
    createTransactionBuild 1 ["r1"] 10000 "from" (fun _ => some "badscript") [⟨"a", 0, 20000⟩] =
      .ok ⟨[⟨"a", 0, 20000⟩], [⟨"a", 0, "badscript", 20000⟩],
           [⟨"r1", 10000⟩, ⟨"from", 9853⟩], 147, 9853⟩ ∧
    "badscript" ≠ "0014ffff" :=
  ⟨by decide, by decide⟩

/-- C2: the taproot signing loop passes SINGLETON arrays `[prevoutScripts[i]]`
and `[prevoutValues[i]]` — only input i's own previous script and value — to
`hashForWitnessV1`, not the previous scripts and values of ALL inputs.  For a
transaction with two selected UTXOs the library's all-inputs length check
therefore throws for every input index and no BIP341 hash over all inputs is
ever produced, while the hash the claim describes exists (it commits to both
scripts and both values); the two computations agree only in the one-input
case. -/
theorem C2_sighash_singleton_arrays :
    sighashForInput [⟨"a", 0, "s0", 60000⟩, ⟨"b", 1, "s1", 50000⟩]
        [⟨"a", 0, 60000⟩, ⟨"b", 1, 50000⟩] 0 =
      .error "Must supply prevout script and value for all inputs" ∧
    sighashForInput [⟨"a", 0, "s0", 60000⟩, ⟨"b", 1, "s1", 50000⟩]
        [⟨"a", 0, 60000⟩, ⟨"b", 1, 50000⟩] 1 =
      .error "Must supply prevout script and value for all inputs" ∧
    specSighashForInput [⟨"a", 0, "s0", 60000⟩, ⟨"b", 1, "s1", 50000⟩] 0 =
      .ok ⟨0, ["s0", "s1"], [60000, 50000], sighashDefault, genesisBlockHashHex⟩ ∧
    sighashForInput [⟨"a", 0, "s0", 60000⟩, ⟨"b", 1, "s1", 50000⟩]
        [⟨"a", 0, 60000⟩, ⟨"b", 1, 50000⟩] 0 ≠
      specSighashForInput [⟨"a", 0, "s0", 60000⟩, ⟨"b", 1, "s1", 50000⟩] 0 ∧
    sighashForInput [⟨"a", 0, "s0", 60000⟩] [⟨"a", 0, 60000⟩] 0 =
      specSighashForInput [⟨"a", 0, "s0", 60000⟩] 0 :=
  ⟨by decide, by decide, by decide, by decide, by decide⟩

/-- C4: the taproot key tweak of main.js lines 365-384.  For a valid private
scalar `0 < d < N`: if the compressed public key's leading byte is 3 (odd y
parity) the effective signing scalar is `(N - d) % N`, which differs from the
raw scalar `d`; with even parity the raw scalar is used unchanged.  In both
cases a signature is accepted by the signing step only if the noble `verify`
reports it valid against the 32-byte x-only public key of the RAW key
(`getPublicKey(d).slice(1, 33)`), since the code verifies before accepting and
aborts otherwise. -/
theorem C4_parity_tweak (gp : Nat → List Nat) (ss : TaprootSighash → Nat → Nat)
    (sv : Nat → TaprootSighash → List Nat → Bool) (d : Nat) (h : TaprootSighash) (sig : Nat)
    (hd0 : 0 < d) (hdN : d < secpOrder) :
    ((gp d).head? = some 3 →
      privateKeyToUse (gp d) d = (secpOrder - d) % secpOrder ∧
      privateKeyToUse (gp d) d ≠ d) ∧
    ((gp d).head? ≠ some 3 → privateKeyToUse (gp d) d = d) ∧
    (signTaprootInput gp ss sv d h = .ok sig →
      sv sig h (((gp d).drop 1).take 32) = true) := by
  have hmod : (secpOrder - d) % secpOrder = secpOrder - d :=
    Nat.mod_eq_of_lt (by omega)
  have hodd : secpOrder % 2 = 1 := by decide
  refine ⟨?_, ?_, ?_⟩
  · intro hpar
    have he : privateKeyToUse (gp d) d = (secpOrder - d) % secpOrder := by
      simp only [privateKeyToUse, if_pos hpar]
    refine ⟨he, ?_⟩
    rw [he, hmod]
    omega
  · intro hpar
    simp only [privateKeyToUse, if_neg hpar]
  · intro hok
    simp only [signTaprootInput] at hok
    split at hok
    · next hv =>
      simp only [Except.ok.injEq] at hok
      rw [← hok]
      exact hv
    · simp at hok

/-- C4 witness: the tweak theorem applied at the scalar 1 with an oracle whose
compressed public key starts with byte 3 (odd parity): the effective scalar is
`N - 1`, differing from the raw scalar, and the accepted signature verified
against the raw key's x-only bytes. -/
theorem C4_parity_tweak_witness :
    0 < 1 ∧ 1 < secpOrder ∧
    ((([3] : List Nat).head? = some 3 →
      privateKeyToUse [3] 1 = (secpOrder - 1) % secpOrder ∧
      privateKeyToUse [3] 1 ≠ 1) ∧
    (([3] : List Nat).head? ≠ some 3 → privateKeyToUse [3] 1 = 1) ∧
    (signTaprootInput (fun _ => [3]) (fun _ _ => 7) (fun _ _ _ => true) 1
        ⟨0, [], [], 0, ""⟩ = .ok 7 →
      (fun _ _ _ => true) 7 (⟨0, [], [], 0, ""⟩ : TaprootSighash)
        ((([3] : List Nat).drop 1).take 32) = true)) :=
  ⟨by decide, by decide,
   C4_parity_tweak (fun _ => [3]) (fun _ _ => 7) (fun _ _ _ => true) 1
     ⟨0, [], [], 0, ""⟩ 7 (by decide) (by decide)⟩

/-- C9 (amended): fee-rate resolution differs between the two variants.  The
P2WPKH variant follows the claimed precedence: a valid positive numeric
configured rate wins; otherwise the API's fastestFee is used; if the API also
fails the run fails hard.  The taproot variant's `getFeeRate` queries the API
FIRST and returns `halfHourFee || fastestFee || config.feeRate`; the configured
rate is only a fallback (used when the API result is falsy or the fetch fails),
it is never validated, and the function never fails hard. -/
theorem C9_fee_rate_precedence :
    (∀ (r : Rat) (api : Option Rat), 0 < r → getFeeRateP2wpkh (some r) api = .ok r) ∧
    (∀ (cfg : Option Rat) (fr : Rat), validConfigRate cfg = none →
      getFeeRateP2wpkh cfg (some fr) = .ok fr) ∧
    (∀ cfg : Option Rat, validConfigRate cfg = none →
      getFeeRateP2wpkh cfg none = .error "cannot obtain a transaction fee rate") ∧
    (∀ (dta : RecommendedFees) (cfg : Option Rat), dta.halfHourFee ≠ 0 →
      getFeeRate (some dta) cfg = some dta.halfHourFee) ∧
    (∀ (dta : RecommendedFees) (cfg : Option Rat), dta.halfHourFee = 0 → dta.fastestFee ≠ 0 →
      getFeeRate (some dta) cfg = some dta.fastestFee) ∧
    (∀ (dta : RecommendedFees) (cfg : Option Rat), dta.halfHourFee = 0 → dta.fastestFee = 0 →
      getFeeRate (some dta) cfg = cfg) ∧
    (∀ cfg : Option Rat, getFeeRate none cfg = cfg) := by
  refine ⟨?_, ?_, ?_, ?_, ?_, ?_, ?_⟩
  · intro r api hr
    simp only [getFeeRateP2wpkh, validConfigRate, if_pos hr]
  · intro cfg fr hv
    simp only [getFeeRateP2wpkh, hv]
  · intro cfg hv
    simp only [getFeeRateP2wpkh, hv]
  · intro dta cfg hh
    simp only [getFeeRate, if_pos hh]
  · intro dta cfg hh hf
    simp only [getFeeRate, hh, if_pos hf]
    simp
  · intro dta cfg hh hf
    simp only [getFeeRate, hh, hf]
    simp
  · intro cfg
    simp only [getFeeRate]

/-- C9 witness: concrete instances of every branch of the amended precedence:
a valid configured rate 5 wins in the P2WPKH variant; an invalid (zero)
configured rate falls through to the API rate 2 or to the hard failure; the
taproot variant returns the API's halfHourFee 3 although 7 is configured, and
returns the configured 7 when the fetch fails. -/
theorem C9_fee_rate_precedence_witness :
    (0 : Rat) < 5 ∧
    getFeeRateP2wpkh (some 5) (some 2) = .ok 5 ∧
    validConfigRate (some 0) = none ∧
    getFeeRateP2wpkh (some 0) (some 2) = .ok 2 ∧
    getFeeRateP2wpkh (some 0) none = .error "cannot obtain a transaction fee rate" ∧
    getFeeRate (some ⟨3, 5⟩) (some 7) = some 3 ∧
    getFeeRate none (some 7) = some 7 :=
  ⟨by norm_num,
   C9_fee_rate_precedence.1 5 (some 2) (by norm_num),
   by simp [validConfigRate],
   C9_fee_rate_precedence.2.1 (some 0) 2 (by simp [validConfigRate]),
   C9_fee_rate_precedence.2.2.1 (some 0) (by simp [validConfigRate]),
   C9_fee_rate_precedence.2.2.2.1 ⟨3, 5⟩ (some 7) (by norm_num),
   C9_fee_rate_precedence.2.2.2.2.2.2 (some 7)⟩

/-- C9 counterexample: with a valid positive configured rate of 5 sat/vB and a
successful API fetch reporting halfHourFee 3, the taproot variant's
`getFeeRate` returns 3, not the configured 5 — the configured rate does NOT
take priority, contradicting the claimed precedence. -/
theorem C9_counterexample :
    getFeeRate (some ⟨3, 5⟩) (some 5) = some 3 ∧ (0 : Rat) < 5 ∧ (3 : Rat) ≠ 5 := by
  refine ⟨?_, by norm_num, by norm_num⟩
  simp only [getFeeRate]
  norm_num

/-- C10: when `config.sendAmountBTC` is absent or falsy (zero), the taproot
variant does not fail: line 113 silently substitutes the 0.0001 BTC default,
giving `Math.floor(0.0001 * 1e8) = 10000` sats per recipient; and for any
configured non-zero amount the per-recipient value is
`Math.floor(sendAmountBTC * 1e8)`, the same computation as utils.js
`btcToSats`.  (JS doubles are modelled as exact rationals; at the default,
`0.0001 * 1e8` floors to 10000 under both semantics.) -/
theorem C10_default_amount (q : Rat) (hq : q ≠ 0) :
    amountInSats none = 10000 ∧
    amountInSats (some 0) = 10000 ∧
    amountInSats (some q) = btcToSats q ∧
    btcToSats q = ⌊q * 100000000⌋ := by
  refine ⟨?_, ?_, ?_, rfl⟩
  · show ⌊amountToSendBTC none * 100000000⌋ = 10000
    norm_num [amountToSendBTC]
  · show ⌊amountToSendBTC (some 0) * 100000000⌋ = 10000
    norm_num [amountToSendBTC]
  · simp only [amountInSats, amountToSendBTC, btcToSats, if_pos hq]

/-- C10 witness: the default substitution at a concrete non-zero configured
amount of 0.5 BTC, together with the two default cases. -/
theorem C10_default_amount_witness :
    ((1 : Rat) / 2 ≠ 0) ∧
    (amountInSats none = 10000 ∧
     amountInSats (some 0) = 10000 ∧
     amountInSats (some (1 / 2)) = btcToSats (1 / 2) ∧
     btcToSats (1 / 2) = ⌊((1 : Rat) / 2) * 100000000⌋) :=
  ⟨by norm_num, C10_default_amount (1 / 2) (by norm_num)⟩
